import Mathlib

/-!
Verification of the jarvis-ear audio daemon against its specification.

The Python sources under src/jarvis-ear/src/jarvis_ear/ are shallowly
embedded: byte strings become lists of naturals, wall-clock instants
(time.monotonic) become rationals passed explicitly, and each method
becomes a pure function from the object state (a structure) to the new
state plus its return value.
-/

namespace JarvisEar

/-- Raw bytes (Python bytes objects) as lists of naturals. -/
abbrev Bytes := List Nat

/-! ## config.py -/

def SAMPLE_RATE : Nat := 16000

def SAMPLE_WIDTH : Nat := 2

def CHANNELS : Nat := 1

def FRAME_SIZE : Nat := 512

def PREROLL_FRAMES : Nat := 15

def SILENCE_TIMEOUT_S : ℚ := 2

/-- Modelled from the spec: config.py under src/ does not define
CONVERSATION_TIMEOUT_S although state_machine.py imports it; the spec
fixes T_conv = 15.0 s. -/
def CONVERSATION_TIMEOUT_S : ℚ := 15

/-- Modelled from the spec: config.py under src/ does not define
MIC_MUTE_SAFETY_TIMEOUT_S although speaker.py imports it; the spec
fixes T_mute_safety = 60 s. -/
def MIC_MUTE_SAFETY_TIMEOUT_S : ℚ := 60

/-! ## state_machine.py -/

/-- The three lifecycle states of state_machine.State. -/
inductive State where
  | idle
  | capturing
  | conversation
deriving DecidableEq, Repr

/-- Fields of state_machine.CaptureStateMachine. -/
structure CaptureStateMachine where
  state : State
  silenceTimeout : ℚ
  captureBuffer : List Bytes
  lastSpeechTime : ℚ
  captureStartTime : ℚ
  conversationStart : ℚ
deriving DecidableEq, Repr

/-- CaptureStateMachine.__init__ with the default silence timeout. -/
def CaptureStateMachine.init : CaptureStateMachine :=
  { state := .idle
    silenceTimeout := SILENCE_TIMEOUT_S
    captureBuffer := []
    lastSpeechTime := 0
    captureStartTime := 0
    conversationStart := 0 }

/-- CaptureStateMachine.on_wake_word: ignored unless IDLE; otherwise
enter CAPTURING with the drained pre-roll (appended only when non-empty)
and restart the silence timer. -/
def CaptureStateMachine.onWakeWord (m : CaptureStateMachine) (now : ℚ)
    (preroll : Bytes) : CaptureStateMachine :=
  if m.state ≠ State.idle then m
  else
    { m with
      state := .capturing
      captureBuffer := if preroll ≠ [] then [preroll] else []
      lastSpeechTime := now
      captureStartTime := now }

/-- CaptureStateMachine.on_frame: outside CAPTURING returns None and
leaves everything unchanged; otherwise appends the frame, refreshes the
last-speech time on speech, and finalizes (returning the concatenated
buffer and going back to IDLE) when the silence timeout has elapsed. -/
def CaptureStateMachine.onFrame (m : CaptureStateMachine) (now : ℚ)
    (frame : Bytes) (isSpeech : Bool) : CaptureStateMachine × Option Bytes :=
  if m.state ≠ State.capturing then (m, none)
  else
    let buf := m.captureBuffer ++ [frame]
    let lastSpeech := if isSpeech then now else m.lastSpeechTime
    if now - lastSpeech ≥ m.silenceTimeout then
      ({ m with state := .idle, captureBuffer := [], lastSpeechTime := lastSpeech },
       some buf.flatten)
    else
      ({ m with captureBuffer := buf, lastSpeechTime := lastSpeech }, none)

/-- CaptureStateMachine.on_tts_done: logs when the state is neither IDLE
nor CAPTURING but transitions to CONVERSATION unconditionally, resetting
the conversation clock. -/
def CaptureStateMachine.onTtsDone (m : CaptureStateMachine) (now : ℚ) :
    CaptureStateMachine :=
  { m with state := .conversation, conversationStart := now }

/-- CaptureStateMachine.check_conversation_timeout. -/
def CaptureStateMachine.checkConversationTimeout (m : CaptureStateMachine)
    (now : ℚ) : CaptureStateMachine × Bool :=
  if m.state ≠ State.conversation then (m, false)
  else if now - m.conversationStart ≥ CONVERSATION_TIMEOUT_S then
    ({ m with state := .idle }, true)
  else (m, false)

/-- CaptureStateMachine.on_conversation_speech: ignored unless
CONVERSATION; otherwise start a fresh capture without a wake word. -/
def CaptureStateMachine.onConversationSpeech (m : CaptureStateMachine)
    (now : ℚ) : CaptureStateMachine :=
  if m.state ≠ State.conversation then m
  else
    { m with
      state := .capturing
      captureBuffer := []
      lastSpeechTime := now
      captureStartTime := now }

/-- CaptureStateMachine.reset. -/
def CaptureStateMachine.reset (m : CaptureStateMachine) : CaptureStateMachine :=
  { m with state := .idle, captureBuffer := [], conversationStart := 0 }

/-- One externally visible event of the state machine (return values are
discarded; the state evolution is what event traces observe). -/
inductive SMEvent where
  | wakeWord (now : ℚ) (preroll : Bytes)
  | frame (now : ℚ) (f : Bytes) (isSpeech : Bool)
  | ttsDone (now : ℚ)
  | checkTimeout (now : ℚ)
  | convSpeech (now : ℚ)
  | reset
deriving DecidableEq, Repr

def CaptureStateMachine.applyEvent (m : CaptureStateMachine) :
    SMEvent → CaptureStateMachine
  | .wakeWord now p => m.onWakeWord now p
  | .frame now f s => (m.onFrame now f s).1
  | .ttsDone now => m.onTtsDone now
  | .checkTimeout now => (m.checkConversationTimeout now).1
  | .convSpeech now => m.onConversationSpeech now
  | .reset => m.reset

def CaptureStateMachine.runEvents (m : CaptureStateMachine)
    (es : List SMEvent) : CaptureStateMachine :=
  es.foldl CaptureStateMachine.applyEvent m

/-! ## ring_buffer.py

collections.deque(maxlen=K): appending at capacity K > 0 evicts the
leftmost (oldest) element; a deque with maxlen=0 stores nothing. -/

structure RingBuffer where
  maxFrames : Nat
  buffer : List Bytes
deriving DecidableEq, Repr

/-- RingBuffer.__init__(max_frames). -/
def RingBuffer.init (maxFrames : Nat) : RingBuffer :=
  { maxFrames := maxFrames, buffer := [] }

/-- RingBuffer.append: deque.append semantics under maxlen. -/
def RingBuffer.append (rb : RingBuffer) (frame : Bytes) : RingBuffer :=
  if rb.maxFrames = 0 then rb
  else if rb.buffer.length = rb.maxFrames then
    { rb with buffer := rb.buffer.drop 1 ++ [frame] }
  else { rb with buffer := rb.buffer ++ [frame] }

/-- RingBuffer.drain: join all frames in temporal order, empty the
buffer, return the joined bytes. -/
def RingBuffer.drain (rb : RingBuffer) : Bytes × RingBuffer :=
  (rb.buffer.flatten, { rb with buffer := [] })

/-- RingBuffer.clear. -/
def RingBuffer.clear (rb : RingBuffer) : RingBuffer :=
  { rb with buffer := [] }

/-- RingBuffer.__len__. -/
def RingBuffer.size (rb : RingBuffer) : Nat :=
  rb.buffer.length

/-- One ring-buffer operation for operation traces. -/
inductive RBOp where
  | append (frame : Bytes)
  | drain
  | clear
deriving DecidableEq, Repr

def RingBuffer.applyOp (rb : RingBuffer) : RBOp → RingBuffer
  | .append f => rb.append f
  | .drain => (rb.drain).2
  | .clear => rb.clear

def RingBuffer.runOps (rb : RingBuffer) (ops : List RBOp) : RingBuffer :=
  ops.foldl RingBuffer.applyOp rb

def RingBuffer.appendAll (rb : RingBuffer) (fs : List Bytes) : RingBuffer :=
  fs.foldl RingBuffer.append rb

/-! ## audio.py (AudioCapture._capture_loop) -/

/-- Target frame size in bytes: 512 samples * 2 bytes * 1 channel. -/
def TARGET_FRAME_BYTES : Nat := FRAME_SIZE * SAMPLE_WIDTH * CHANNELS

/-- One result of self._pcm.read(): a negative length (overrun error
code), or the returned byte chunk (possibly empty). -/
inductive AlsaRead where
  | err (code : Int)
  | data (bytes : Bytes)
deriving DecidableEq, Repr

/-- State threaded through AudioCapture._capture_loop: the pre-roll ring
buffer, the bounded frame queue (maxsize 100) with its drop counter, the
overrun counter and the byte accumulator. -/
structure CaptureState where
  ringBuffer : RingBuffer
  queue : List Bytes
  queueMax : Nat
  dropCount : Nat
  overrunCount : Nat
  accumulator : Bytes
deriving DecidableEq, Repr

def CaptureState.init : CaptureState :=
  { ringBuffer := RingBuffer.init PREROLL_FRAMES
    queue := []
    queueMax := 100
    dropCount := 0
    overrunCount := 0
    accumulator := [] }

/-- Delivery of one complete frame: always append to the ring buffer,
then try queue.put_nowait; on queue.Full drop only the queue copy and
bump the drop counter. -/
def CaptureState.deliverFrame (st : CaptureState) (frame : Bytes) :
    CaptureState :=
  let st := { st with ringBuffer := st.ringBuffer.append frame }
  if st.queue.length < st.queueMax then
    { st with queue := st.queue ++ [frame] }
  else
    { st with dropCount := st.dropCount + 1 }

/-- The inner while-loop: while the accumulator holds at least
TARGET_FRAME_BYTES, slice a frame off the front.  Returns the emitted
frames in order together with the remaining accumulator. -/
def emitFrames (acc : Bytes) : List Bytes × Bytes :=
  if _h : TARGET_FRAME_BYTES ≤ acc.length then
    let frame := acc.take TARGET_FRAME_BYTES
    let rest := acc.drop TARGET_FRAME_BYTES
    let p := emitFrames rest
    (frame :: p.1, p.2)
  else ([], acc)
termination_by acc.length
decreasing_by
  simp only [List.length_drop]
  have : 0 < TARGET_FRAME_BYTES := by decide
  omega

/-- One iteration of the capture loop body for a single ALSA read.
Returns the new state and the frames emitted by this read. -/
def CaptureState.processRead (st : CaptureState) (r : AlsaRead) :
    CaptureState × List Bytes :=
  match r with
  | .err _ => ({ st with overrunCount := st.overrunCount + 1 }, [])
  | .data bytes =>
    if bytes.length = 0 then (st, [])
    else
      let acc := st.accumulator ++ bytes
      let p := emitFrames acc
      let st := { st with accumulator := p.2 }
      (p.1.foldl CaptureState.deliverFrame st, p.1)

/-- Run the capture loop over a list of ALSA reads, collecting all
emitted frames. -/
def CaptureState.runReads (st : CaptureState) (reads : List AlsaRead) :
    CaptureState × List Bytes :=
  match reads with
  | [] => (st, [])
  | r :: rest =>
    let p := st.processRead r
    let q := p.1.runReads rest
    (q.1, p.2 ++ q.2)

/-! ## speaker.py (AudioPlayer)

The playback loop runs on its own thread and consumes tuples
(index, audio_bytes, content_type) from a priority queue.  We model one
loop iteration as a function of the current player state, the current
time and the dequeued item (none when queue.get timed out empty).
External effects (amixer mute/unmute, ALSA writes, the done callback)
are recorded as an action trace.  Decoding via ffmpeg is an external
process, abstracted as a parameter; an empty result models decode
failure exactly as in _decode_to_pcm. -/

/-- One item of the player's priority queue: (index, audio bytes,
content type).  signal_done enqueues (total_chunks, b"", "sentinel"). -/
structure QItem where
  index : Nat
  audio : Bytes
  contentType : String
deriving DecidableEq, Repr

/-- Externally visible effects of the playback loop. -/
inductive PAction where
  | muteMic (at_ : ℚ)
  | unmuteMic
  | writePcm (index : Nat) (pcm : Bytes)
  | playbackDone
deriving DecidableEq, Repr

/-- Mutable fields of AudioPlayer touched by the playback loop: the
next-expected-index cursor, the out-of-order pending map (a dict keyed
by chunk index), the playing flag and the mic-muted-at timestamp. -/
structure PlayerState where
  nextIndex : Nat
  pending : List (Nat × Bytes × String)
  playing : Bool
  micMutedAt : Option ℚ
deriving DecidableEq, Repr

def PlayerState.init : PlayerState :=
  { nextIndex := 0, pending := [], playing := false, micMutedAt := none }

/-- dict lookup: pending[idx] when present. -/
def lookupPending (l : List (Nat × Bytes × String)) (k : Nat) :
    Option (Bytes × String) :=
  match l with
  | [] => none
  | (k', v) :: rest => if k' = k then some v else lookupPending rest k

/-- dict removal: pending.pop(idx). -/
def erasePending (l : List (Nat × Bytes × String)) (k : Nat) :
    List (Nat × Bytes × String) :=
  match l with
  | [] => []
  | (k', v) :: rest => if k' = k then erasePending rest k
                       else (k', v) :: erasePending rest k

/-- dict assignment: pending[idx] = value (overwrites). -/
def insertPending (l : List (Nat × Bytes × String)) (k : Nat)
    (v : Bytes × String) : List (Nat × Bytes × String) :=
  erasePending l k ++ [(k, v)]

theorem length_erasePending_le (l : List (Nat × Bytes × String)) (k : Nat) :
    (erasePending l k).length ≤ l.length := by
  induction l with
  | nil => simp [erasePending]
  | cons hd tl ih =>
    obtain ⟨k', v⟩ := hd
    by_cases hk : k' = k
    · simp only [erasePending, if_pos hk, List.length_cons]
      omega
    · simp only [erasePending, if_neg hk, List.length_cons]
      omega

theorem length_erasePending_lt (l : List (Nat × Bytes × String)) (k : Nat)
    (h : (lookupPending l k).isSome) :
    (erasePending l k).length < l.length := by
  induction l with
  | nil => simp [lookupPending] at h
  | cons hd tl ih =>
    obtain ⟨k', v⟩ := hd
    by_cases hk : k' = k
    · simp only [erasePending, if_pos hk, List.length_cons]
      have := length_erasePending_le tl k
      omega
    · simp only [lookupPending, if_neg hk] at h
      simp only [erasePending, if_neg hk, List.length_cons]
      exact Nat.succ_lt_succ (ih h)

/-- The inner while-loop of _playback_loop: while the cursor's index is
pending, pop it, decode it and (when the PCM is non-empty) write it,
then advance the cursor. -/
def drainLoop (decode : Bytes → String → Bytes) (p : PlayerState) :
    PlayerState × List PAction :=
  match _h : lookupPending p.pending p.nextIndex with
  | none => (p, [])
  | some (audio, ct) =>
    let pcm := decode audio ct
    let acts := if pcm ≠ [] then [PAction.writePcm p.nextIndex pcm] else []
    let q := drainLoop decode
      { p with pending := erasePending p.pending p.nextIndex
               nextIndex := p.nextIndex + 1 }
    (q.1, acts ++ q.2)
termination_by p.pending.length
decreasing_by
  exact length_erasePending_lt _ _ (by simp [_h])

/-- The safety block at the top of every _playback_loop iteration:
force-unmute when the mic has been muted for more than the safety
timeout. -/
def safetyCheck (p : PlayerState) (now : ℚ) : PlayerState × List PAction :=
  match p.micMutedAt with
  | some t =>
    if now - t > MIC_MUTE_SAFETY_TIMEOUT_S then
      ({ p with micMutedAt := none }, [PAction.unmuteMic])
    else (p, [])
  | none => (p, [])

/-- The sentinel branch of _playback_loop: drain ALSA (external), unmute
if muted, clear the playing flag, reset cursor and pending, fire the
on_playback_done callback. -/
def handleSentinel (p : PlayerState) : PlayerState × List PAction :=
  let unm :=
    if p.micMutedAt ≠ none then
      ({ p with micMutedAt := none }, [PAction.unmuteMic])
    else (p, [])
  ({ unm.1 with playing := false, nextIndex := 0, pending := [] },
   unm.2 ++ [PAction.playbackDone])

/-- The real-chunk branch of _playback_loop: buffer the chunk in the
pending map, mute the mic and set playing when its index is 0, then play
every sequential chunk available from the cursor. -/
def handleChunk (decode : Bytes → String → Bytes) (p : PlayerState)
    (now : ℚ) (it : QItem) : PlayerState × List PAction :=
  let pb := { p with
    pending := insertPending p.pending it.index (it.audio, it.contentType) }
  let first :=
    if it.index = 0 then
      ({ pb with micMutedAt := some now, playing := true },
       [PAction.muteMic now])
    else (pb, [])
  let q := drainLoop decode first.1
  (q.1, first.2 ++ q.2)

/-- One iteration of _playback_loop: first the mic-mute safety timeout
check, then the dequeued item (if any): a sentinel or a real chunk. -/
def stepPlayer (decode : Bytes → String → Bytes) (p : PlayerState)
    (now : ℚ) (item : Option QItem) : PlayerState × List PAction :=
  let s := safetyCheck p now
  match item with
  | none => s
  | some it =>
    if it.contentType = "sentinel" then
      let r := handleSentinel s.1
      (r.1, s.2 ++ r.2)
    else
      let r := handleChunk decode s.1 now it
      (r.1, s.2 ++ r.2)

/-- Run the playback loop over a trace of (time, dequeued item)
iterations, accumulating the action trace. -/
def runPlayer (decode : Bytes → String → Bytes) (p : PlayerState)
    (evs : List (ℚ × Option QItem)) : PlayerState × List PAction :=
  match evs with
  | [] => (p, [])
  | (now, item) :: rest =>
    let q := stepPlayer decode p now item
    let r := runPlayer decode q.1 rest
    (r.1, q.2 ++ r.2)

/-- AudioPlayer.stop: sets the stop event and, when the mic is still
muted, unmutes it before joining the thread. -/
def stopPlayer (p : PlayerState) : PlayerState × List PAction :=
  if p.micMutedAt ≠ none then
    ({ p with micMutedAt := none }, [PAction.unmuteMic])
  else (p, [])

/-- The chunk indices written by an action trace, in order. -/
def writtenIndices (acts : List PAction) : List Nat :=
  acts.filterMap fun a =>
    match a with
    | .writePcm i _ => some i
    | _ => none

/-- The mute requests issued by an action trace. -/
def muteActions (acts : List PAction) : List ℚ :=
  acts.filterMap fun a =>
    match a with
    | .muteMic t => some t
    | _ => none

/-! ## backend.py (pcm_to_wav)

Python's wave module, for a PCM file with nchannels=1, sampwidth=2,
framerate=16000, writes the canonical 44-byte RIFF/WAVE header followed
by the raw frames: RIFF tag, chunk size 36+n, WAVE tag, fmt chunk of
size 16 (format 1 = PCM, channels, rate, byte rate, block align, bits
per sample), data tag, data size n, then the n data bytes. -/

/-- Little-endian 16-bit field. -/
def le16 (n : Nat) : Bytes := [n % 256, n / 256 % 256]

/-- Little-endian 32-bit field. -/
def le32 (n : Nat) : Bytes :=
  [n % 256, n / 256 % 256, n / 65536 % 256, n / 16777216 % 256]

/-- ASCII tag "RIFF". -/
def riffTag : Bytes := [82, 73, 70, 70]

/-- ASCII tag "WAVE". -/
def waveTag : Bytes := [87, 65, 86, 69]

/-- ASCII tag "fmt " (with trailing space). -/
def fmtTag : Bytes := [102, 109, 116, 32]

/-- ASCII tag "data". -/
def dataTag : Bytes := [100, 97, 116, 97]

/-- backend.pcm_to_wav: wrap raw PCM in the WAV header produced by the
wave module at 16 kHz, 16-bit, mono. -/
def pcm_to_wav (pcm : Bytes) : Bytes :=
  riffTag ++ le32 (36 + pcm.length) ++ waveTag ++
  fmtTag ++ le32 16 ++ le16 1 ++ le16 CHANNELS ++ le32 SAMPLE_RATE ++
  le32 (SAMPLE_RATE * CHANNELS * SAMPLE_WIDTH) ++
  le16 (CHANNELS * SAMPLE_WIDTH) ++ le16 (SAMPLE_WIDTH * 8) ++
  dataTag ++ le32 pcm.length ++ pcm

/-- Read a little-endian 16-bit field at offset off. -/
def readLe16 (w : Bytes) (off : Nat) : Nat :=
  w.getD off 0 + 256 * w.getD (off + 1) 0

/-- Read a little-endian 32-bit field at offset off. -/
def readLe32 (w : Bytes) (off : Nat) : Nat :=
  w.getD off 0 + 256 * w.getD (off + 1) 0 +
  65536 * w.getD (off + 2) 0 + 16777216 * w.getD (off + 3) 0

/-- Modelled from the spec: the repository contains no WAV reader (TTS
decoding is delegated to ffmpeg), so P7's decode is modelled as a
canonical-layout RIFF/WAVE parser returning (sample rate, channels,
sample width in bytes, data payload). -/
def wavDecode (w : Bytes) : Option (Nat × Nat × Nat × Bytes) :=
  if w.take 4 = riffTag ∧ ((w.drop 8).take 4 = waveTag) ∧
     ((w.drop 12).take 4 = fmtTag) ∧ ((w.drop 36).take 4 = dataTag) then
    some (readLe32 w 24, readLe16 w 22, readLe16 w 34 / 8,
          (w.drop 44).take (readLe32 w 40))
  else none

/-! ## vad.py (VoiceActivityDetector)

The ONNX session is an opaque stateful model: we abstract it as a pure
function from (audio with context, hidden state) to (probability, new
hidden state) over an arbitrary hidden-state type.  The rest of
get_probability — the strict frame-length check, int16 decoding, the
Direct Form II Transposed biquad high-pass with its 2-element filter
memory, and the 64-sample context window — is embedded directly.
Sample values are rationals (the float computations, exactly). -/

/-- Expected frame length in bytes: 512 samples * 2 bytes. -/
def EXPECTED_BYTES : Nat := FRAME_SIZE * 2

/-- Decode two little-endian bytes as a signed 16-bit integer. -/
def toInt16 (lo hi : Nat) : Int :=
  let u := lo + 256 * hi
  if u < 32768 then (u : Int) else (u : Int) - 65536

/-- np.frombuffer(frame, dtype=np.int16).astype(np.float32) / 32768.0 -/
def bytesToSamples : Bytes → List ℚ
  | lo :: hi :: rest => ((toInt16 lo hi : ℚ) / 32768) :: bytesToSamples rest
  | _ => []

/-- Biquad coefficients (b0,b1,b2) and (a1,a2) with a0 = 1, as stored in
_hpf_b / _hpf_a after _design_highpass. -/
structure HpfCoeffs where
  b0 : ℚ
  b1 : ℚ
  b2 : ℚ
  a1 : ℚ
  a2 : ℚ
deriving DecidableEq, Repr

/-- One step of the Direct Form II Transposed filter loop in
get_probability: y = b0*x + w0; w0 := b1*x - a1*y + w1; w1 := b2*x - a2*y. -/
def hpfStep (c : HpfCoeffs) (w : ℚ × ℚ) (x : ℚ) : ℚ × (ℚ × ℚ) :=
  let y := c.b0 * x + w.1
  (y, (c.b1 * x - c.a1 * y + w.2, c.b2 * x - c.a2 * y))

/-- The filter loop over a whole frame, threading the filter memory. -/
def hpfRun (c : HpfCoeffs) (w : ℚ × ℚ) : List ℚ → List ℚ × (ℚ × ℚ)
  | [] => ([], w)
  | x :: rest =>
    let p := hpfStep c w x
    let q := hpfRun c p.2 rest
    (p.1 :: q.1, q.2)

/-- Mutable fields of VoiceActivityDetector used by get_probability,
over an abstract ONNX hidden-state type H. -/
structure VadState (H : Type) where
  threshold : ℚ
  hidden : H
  context : List ℚ
  contextSize : Nat
  coeffs : HpfCoeffs
  hpfW : ℚ × ℚ

/-- VoiceActivityDetector.get_probability: strict length validation
first (ValueError on any frame that is not exactly 1024 bytes), then
int16 decode, high-pass filter, context prepend / context update, model
invocation and hidden-state update.  Returns the (possibly updated)
object state together with the result; the state is returned unchanged
when the ValueError is raised before any mutation. -/
def VadState.getProbability {H : Type}
    (session : List ℚ → H → ℚ × H) (v : VadState H) (frame : Bytes) :
    VadState H × Except String ℚ :=
  if frame.length ≠ EXPECTED_BYTES then
    (v, .error "Frame must be exactly 1024 bytes")
  else
    let samples := bytesToSamples frame
    let filtered := hpfRun v.coeffs v.hpfW samples
    let audioWithContext := v.context ++ filtered.1
    let context' := filtered.1.drop (filtered.1.length - v.contextSize)
    let out := session audioWithContext v.hidden
    ({ v with hidden := out.2, context := context', hpfW := filtered.2 },
     .ok out.1)

/-- VoiceActivityDetector.is_speech: get_probability >= threshold. -/
def VadState.isSpeech {H : Type}
    (session : List ℚ → H → ℚ × H) (v : VadState H) (frame : Bytes) :
    VadState H × Except String Bool :=
  let p := v.getProbability session frame
  (p.1, p.2.map (fun prob => decide (prob ≥ v.threshold)))

/-! ## Derived trace helpers used by the claims -/

/-- Feed frames to the state machine one by one, as the main loop does
during CAPTURING, stopping at the first finalized utterance.  Returns
the machine, the unconsumed inputs and the finalized audio (if any).
Inputs are (now, frame, is_speech) triples. -/
def feedFrames (m : CaptureStateMachine) :
    List (ℚ × Bytes × Bool) →
      CaptureStateMachine × List (ℚ × Bytes × Bool) × Option Bytes
  | [] => (m, [], none)
  | x :: rest =>
    let p := m.onFrame x.1 x.2.1 x.2.2
    match p.2 with
    | some audio => (p.1, rest, some audio)
    | none => feedFrames p.1 rest

/-- Events of the conversation-free alphabet with non-empty pre-rolls:
wake word (non-empty pre-roll), frames and force reset. -/
def smRestricted : SMEvent → Bool
  | .wakeWord _ p => p ≠ []
  | .frame _ _ _ => true
  | .reset => true
  | _ => false

/-! ## Theorems

### C3: capture buffer non-empty iff state = CAPTURING -/

/-- Helper for C3: the buffer/state coupling is preserved by every event
of the restricted alphabet. -/
theorem applyEvent_restricted_inv (m : CaptureStateMachine) (e : SMEvent)
    (he : smRestricted e = true)
    (h : m.captureBuffer ≠ [] ↔ m.state = State.capturing) :
    ((m.applyEvent e).captureBuffer ≠ [] ↔
      (m.applyEvent e).state = State.capturing) := by
  cases e with
  | wakeWord now p =>
    simp only [smRestricted, decide_eq_true_eq] at he
    simp only [CaptureStateMachine.applyEvent, CaptureStateMachine.onWakeWord]
    split
    · exact h
    · simp [he]
  | frame now f s =>
    simp only [CaptureStateMachine.applyEvent, CaptureStateMachine.onFrame]
    split
    · exact h
    · rename_i hst
      rw [not_not] at hst
      split <;> split <;> simp [hst]
  | ttsDone now => simp [smRestricted] at he
  | checkTimeout now => simp [smRestricted] at he
  | convSpeech now => simp [smRestricted] at he
  | reset =>
    simp [CaptureStateMachine.applyEvent, CaptureStateMachine.reset]

/-- C3 fails on the code as stated: on_tts_done during CAPTURING keeps
the non-empty capture buffer while moving to CONVERSATION, so after
[on_wake_word(b"\x01"), on_tts_done] the buffer is non-empty and the
state is not CAPTURING. -/
theorem buffer_state_exclusivity_counterexample :
    ¬ ((CaptureStateMachine.runEvents .init
          [.wakeWord 0 [1], .ttsDone 1]).captureBuffer ≠ [] ↔
       (CaptureStateMachine.runEvents .init
          [.wakeWord 0 [1], .ttsDone 1]).state = State.capturing) := by
  decide

/-- C3 amended: restricted to traces over on_wake_word with a non-empty
pre-roll, on_frame and reset (no conversation-mode events), the capture
buffer is non-empty exactly when the state is CAPTURING. -/
theorem buffer_state_exclusivity_restricted
    (es : List SMEvent) (hes : ∀ e ∈ es, smRestricted e = true) :
    ((CaptureStateMachine.runEvents .init es).captureBuffer ≠ [] ↔
      (CaptureStateMachine.runEvents .init es).state = State.capturing) := by
  suffices h : ∀ (m : CaptureStateMachine),
      (m.captureBuffer ≠ [] ↔ m.state = State.capturing) →
      ((m.runEvents es).captureBuffer ≠ [] ↔
        (m.runEvents es).state = State.capturing) by
    exact h _ (by simp [CaptureStateMachine.init])
  induction es with
  | nil => intro m hm; exact hm
  | cons e rest ih =>
    intro m hm
    have he : smRestricted e = true := hes e (by simp)
    have hrest : ∀ e' ∈ rest, smRestricted e' = true := by
      intro e' h'; exact hes e' (by simp [h'])
    exact ih hrest _ (applyEvent_restricted_inv m e he hm)

/-- Witness for C3's amended theorem at a concrete restricted trace. -/
theorem buffer_state_exclusivity_restricted_witness :
    ((CaptureStateMachine.runEvents .init
        [.wakeWord 0 [1], .frame 1 [2] true, .reset]).captureBuffer ≠ [] ↔
      (CaptureStateMachine.runEvents .init
        [.wakeWord 0 [1], .frame 1 [2] true, .reset]).state = State.capturing) :=
  buffer_state_exclusivity_restricted
    [.wakeWord 0 [1], .frame 1 [2] true, .reset] (by decide)

/-! ### C4: events in disallowed states are ignored -/

/-- C4 fails on the code as stated for on_tts_done: in CONVERSATION it
does not leave the machine unchanged — it re-enters CONVERSATION and
resets the conversation clock.  Starting from a machine that entered
CONVERSATION at t = 1, a second on_tts_done at t = 2 changes the
conversation-start field from 1 to 2. -/
theorem ignored_events_counterexample :
    ¬ ((CaptureStateMachine.init.onTtsDone 1).onTtsDone 2 =
       CaptureStateMachine.init.onTtsDone 1) := by
  decide

/-- C4 amended: on_wake_word in a non-IDLE state is a no-op and
on_frame outside CAPTURING returns null leaving everything unchanged,
but on_tts_done in CONVERSATION (the only state outside IDLE/CAPTURING)
still transitions: the state stays CONVERSATION while the conversation
clock is reset to now. -/
theorem ignored_events_spec :
    (∀ (m : CaptureStateMachine) (now : ℚ) (p : Bytes),
      m.state ≠ State.idle → m.onWakeWord now p = m) ∧
    (∀ (m : CaptureStateMachine) (now : ℚ) (f : Bytes) (s : Bool),
      m.state ≠ State.capturing → m.onFrame now f s = (m, none)) ∧
    (∀ (m : CaptureStateMachine) (now : ℚ),
      m.state = State.conversation →
        m.onTtsDone now = { m with conversationStart := now }) := by
  refine ⟨?_, ?_, ?_⟩
  · intro m now p h
    simp [CaptureStateMachine.onWakeWord, h]
  · intro m now f s h
    simp [CaptureStateMachine.onFrame, h]
  · intro m now h
    simp [CaptureStateMachine.onTtsDone, ← h]

/-- Witness for C4's amended theorem at concrete machines. -/
theorem ignored_events_spec_witness :
    (CaptureStateMachine.init.onTtsDone 1).onWakeWord 2 [5] =
      CaptureStateMachine.init.onTtsDone 1 :=
  ignored_events_spec.1 (CaptureStateMachine.init.onTtsDone 1) 2 [5] (by decide)

/-! ### C2: frame handling while CAPTURING -/

/-- Helper for C2: the shape of on_frame in CAPTURING as a single
conditional equation. -/
theorem onFrame_capturing_eq (m : CaptureStateMachine) (now : ℚ)
    (f : Bytes) (s : Bool) (hm : m.state = State.capturing) :
    m.onFrame now f s =
      if m.silenceTimeout ≤ now - (if s = true then now else m.lastSpeechTime) then
        ({ m with
            state := State.idle
            captureBuffer := []
            lastSpeechTime := if s = true then now else m.lastSpeechTime },
         some (m.captureBuffer ++ [f]).flatten)
      else
        ({ m with
            captureBuffer := m.captureBuffer ++ [f]
            lastSpeechTime := if s = true then now else m.lastSpeechTime },
         none) := by
  simp only [CaptureStateMachine.onFrame, hm, ne_eq, not_true_eq_false,
    ite_false, ge_iff_le]

/-- Helper for C2: a finalizing on_frame in CAPTURING returns the
concatenated buffer including the just-appended frame and resets to
IDLE with an empty buffer. -/
theorem onFrame_capturing_some (m : CaptureStateMachine) (now : ℚ)
    (f : Bytes) (s : Bool) (audio : Bytes) (hm : m.state = State.capturing)
    (h : (m.onFrame now f s).2 = some audio) :
    audio = m.captureBuffer.flatten ++ f ∧
    (m.onFrame now f s).1.state = State.idle ∧
    (m.onFrame now f s).1.captureBuffer = [] := by
  rw [onFrame_capturing_eq m now f s hm] at h ⊢
  revert h
  split <;> split <;> intro h <;> simp_all

/-- Helper for C2: a non-finalizing on_frame in CAPTURING stays in
CAPTURING with the frame appended. -/
theorem onFrame_capturing_none (m : CaptureStateMachine) (now : ℚ)
    (f : Bytes) (s : Bool) (hm : m.state = State.capturing)
    (h : (m.onFrame now f s).2 = none) :
    (m.onFrame now f s).1.state = State.capturing ∧
    (m.onFrame now f s).1.captureBuffer = m.captureBuffer ++ [f] := by
  rw [onFrame_capturing_eq m now f s hm] at h ⊢
  revert h
  split <;> split <;> intro h <;> simp_all

/-- Helper for C2: over a run of frames in CAPTURING, the finalized
audio is the buffer contents followed by every frame fed since, in
order. -/
theorem feedFrames_capturing (fs : List (ℚ × Bytes × Bool)) :
    ∀ (m m' : CaptureStateMachine) (rest : List (ℚ × Bytes × Bool))
      (audio : Bytes),
      m.state = State.capturing →
      feedFrames m fs = (m', rest, some audio) →
      ∃ pre, fs = pre ++ rest ∧
        audio = m.captureBuffer.flatten ++ (pre.map (fun x => x.2.1)).flatten ∧
        m'.state = State.idle ∧ m'.captureBuffer = [] := by
  induction fs with
  | nil =>
    intro m m' rest audio hm h
    simp [feedFrames] at h
  | cons x rest0 ih =>
    intro m m' rest audio hm h
    simp only [feedFrames] at h
    cases hr : (m.onFrame x.1 x.2.1 x.2.2).2 with
    | some a =>
      rw [hr] at h
      simp only [Prod.mk.injEq, Option.some.injEq] at h
      obtain ⟨hm', hrest, ha⟩ := h
      obtain ⟨haud, hst, hbuf⟩ := onFrame_capturing_some m x.1 x.2.1 x.2.2 a hm hr
      refine ⟨[x], by simp [hrest], ?_, ?_, ?_⟩
      · subst ha hm'
        simp [haud]
      · subst hm'; exact hst
      · subst hm'; exact hbuf
    | none =>
      rw [hr] at h
      obtain ⟨hst, hbuf⟩ := onFrame_capturing_none m x.1 x.2.1 x.2.2 hm hr
      obtain ⟨pre, hfs, haud, hst', hbuf'⟩ := ih _ m' rest audio hst h
      refine ⟨x :: pre, by simp [hfs], ?_, hst', hbuf'⟩
      rw [haud, hbuf]
      simp

/-- C2: while CAPTURING, every on_frame call appends the frame
regardless of is_speech; it returns non-null exactly when
now − last_speech_time (after the speech-time refresh) is at least the
silence timeout; the returned audio is the drained pre-roll followed by
every frame passed since the wake word, including the trailing silence;
and the machine then returns to IDLE with an empty buffer. -/
theorem capturing_frame_spec :
    (∀ (m : CaptureStateMachine) (now : ℚ) (frame : Bytes) (isSpeech : Bool),
      m.state = State.capturing →
      (((m.onFrame now frame isSpeech).2 ≠ none) ↔
        now - (if isSpeech then now else m.lastSpeechTime) ≥ m.silenceTimeout) ∧
      ((m.onFrame now frame isSpeech).2 = none →
        (m.onFrame now frame isSpeech).1.state = State.capturing ∧
        (m.onFrame now frame isSpeech).1.captureBuffer =
          m.captureBuffer ++ [frame]) ∧
      (∀ audio, (m.onFrame now frame isSpeech).2 = some audio →
        audio = m.captureBuffer.flatten ++ frame ∧
        (m.onFrame now frame isSpeech).1.state = State.idle ∧
        (m.onFrame now frame isSpeech).1.captureBuffer = [])) ∧
    (∀ (now0 : ℚ) (preroll : Bytes) (fs : List (ℚ × Bytes × Bool))
      (m' : CaptureStateMachine) (rest : List (ℚ × Bytes × Bool))
      (audio : Bytes),
      feedFrames (CaptureStateMachine.init.onWakeWord now0 preroll) fs =
        (m', rest, some audio) →
      ∃ pre, fs = pre ++ rest ∧
        audio = preroll ++ (pre.map (fun x => x.2.1)).flatten ∧
        m'.state = State.idle ∧ m'.captureBuffer = []) := by
  constructor
  · intro m now frame isSpeech hm
    refine ⟨?_, ?_, ?_⟩
    · rw [onFrame_capturing_eq m now frame isSpeech hm]
      split <;> split <;> simp_all [ge_iff_le]
    · intro h
      exact onFrame_capturing_none m now frame isSpeech hm h
    · intro audio h
      exact onFrame_capturing_some m now frame isSpeech audio hm h
  · intro now0 preroll fs m' rest audio h
    have hwake : (CaptureStateMachine.init.onWakeWord now0 preroll).state =
        State.capturing := by
      simp [CaptureStateMachine.onWakeWord, CaptureStateMachine.init]
    obtain ⟨pre, hfs, haud, hst, hbuf⟩ :=
      feedFrames_capturing fs _ m' rest audio hwake h
    refine ⟨pre, hfs, ?_, hst, hbuf⟩
    rw [haud]
    congr 1
    by_cases hp : preroll = []
    · simp [CaptureStateMachine.onWakeWord, CaptureStateMachine.init, hp]
    · simp [CaptureStateMachine.onWakeWord, CaptureStateMachine.init, hp]

/-! ### C6: ring buffer bound, eviction and drain -/

/-- Helper for C6: append never changes the capacity. -/
theorem RingBuffer.append_maxFrames (rb : RingBuffer) (f : Bytes) :
    (rb.append f).maxFrames = rb.maxFrames := by
  simp only [RingBuffer.append]
  split <;> [skip; split] <;> rfl

/-- Helper for C6: append preserves the size bound. -/
theorem RingBuffer.append_length_le (rb : RingBuffer) (f : Bytes)
    (h : rb.buffer.length ≤ rb.maxFrames) :
    (rb.append f).buffer.length ≤ rb.maxFrames := by
  simp only [RingBuffer.append]
  split
  · exact h
  · split <;> rename_i hfull
    · simp only [List.length_append, List.length_drop, List.length_cons,
        List.length_nil]
      omega
    · simp only [List.length_append, List.length_cons, List.length_nil]
      omega

/-- Helper for C6: every operation preserves capacity and size bound. -/
theorem RingBuffer.runOps_invariant (ops : List RBOp) :
    ∀ rb : RingBuffer, rb.buffer.length ≤ rb.maxFrames →
      (rb.runOps ops).buffer.length ≤ (rb.runOps ops).maxFrames ∧
      (rb.runOps ops).maxFrames = rb.maxFrames := by
  induction ops with
  | nil => intro rb h; exact ⟨h, rfl⟩
  | cons op rest ih =>
    intro rb h
    have hstep : (rb.applyOp op).buffer.length ≤ (rb.applyOp op).maxFrames ∧
        (rb.applyOp op).maxFrames = rb.maxFrames := by
      cases op with
      | append f =>
        exact ⟨by rw [RingBuffer.applyOp, RingBuffer.append_maxFrames]
                  exact RingBuffer.append_length_le rb f h,
               RingBuffer.append_maxFrames rb f⟩
      | drain => exact ⟨by simp [RingBuffer.applyOp, RingBuffer.drain], rfl⟩
      | clear => exact ⟨by simp [RingBuffer.applyOp, RingBuffer.clear], rfl⟩
    have := ih (rb.applyOp op) hstep.1
    exact ⟨this.1, this.2.trans hstep.2⟩

/-- Helper for C6: after appending fs to a buffer within its bound, the
contents are the last-K suffix of (old contents ++ fs), in order. -/
theorem RingBuffer.appendAll_buffer (fs : List Bytes) :
    ∀ rb : RingBuffer, 0 < rb.maxFrames →
      rb.buffer.length ≤ rb.maxFrames →
      (rb.appendAll fs).buffer =
        (rb.buffer ++ fs).drop ((rb.buffer ++ fs).length - rb.maxFrames) := by
  induction fs with
  | nil =>
    intro rb hK hlen
    simp only [RingBuffer.appendAll, List.foldl_nil, List.append_nil]
    rw [Nat.sub_eq_zero_of_le hlen, List.drop_zero]
  | cons f fs ih =>
    intro rb hK hlen
    have hstep : RingBuffer.appendAll rb (f :: fs) =
        RingBuffer.appendAll (rb.append f) fs := rfl
    rw [hstep]
    by_cases hfull : rb.buffer.length = rb.maxFrames
    · have happ : (rb.append f).buffer = rb.buffer.drop 1 ++ [f] := by
        simp only [RingBuffer.append]
        rw [if_neg (by omega), if_pos hfull]
      have hlen' : (rb.append f).buffer.length ≤ (rb.append f).maxFrames := by
        rw [RingBuffer.append_maxFrames]
        exact RingBuffer.append_length_le rb f (le_of_eq hfull)
      have := ih (rb.append f) (by rw [RingBuffer.append_maxFrames]; exact hK)
        hlen'
      rw [this, happ, RingBuffer.append_maxFrames]
      have hdrop : rb.buffer.drop 1 ++ [f] ++ fs =
          (rb.buffer ++ f :: fs).drop 1 := by
        rw [List.drop_append_of_le_length (by omega), List.append_assoc,
          List.singleton_append]
      rw [hdrop, List.drop_drop]
      congr 1
      simp only [List.length_drop, List.length_append, List.length_cons]
      omega
    · have happ : (rb.append f).buffer = rb.buffer ++ [f] := by
        simp only [RingBuffer.append]
        rw [if_neg (by omega), if_neg hfull]
      have := ih (rb.append f) (by rw [RingBuffer.append_maxFrames]; exact hK)
        (by rw [RingBuffer.append_maxFrames, happ]
            simp only [List.length_append, List.length_cons, List.length_nil]
            omega)
      rw [this, happ, RingBuffer.append_maxFrames, List.append_assoc,
        List.singleton_append]

/-- C6: over every sequence of append/drain/clear operations the stored
frame count never exceeds K; an append at capacity K (K ≥ 1, so an
oldest frame exists) evicts exactly the oldest frame; drain returns the
concatenation of the stored frames in temporal (arrival) order and
empties the buffer; and consequently appending any frame sequence to a
fresh buffer of capacity K > 0 retains exactly the most recent K frames
in order. -/
theorem ringBuffer_spec :
    (∀ (K : Nat) (ops : List RBOp), ((RingBuffer.init K).runOps ops).size ≤ K) ∧
    (∀ (rb : RingBuffer) (f : Bytes), 0 < rb.maxFrames →
      rb.buffer.length = rb.maxFrames →
      (rb.append f).buffer = rb.buffer.drop 1 ++ [f] ∧
      (rb.append f).buffer.length = rb.maxFrames) ∧
    (∀ rb : RingBuffer,
      (rb.drain).1 = rb.buffer.flatten ∧ (rb.drain).2.buffer = []) ∧
    (∀ (K : Nat) (fs : List Bytes), 0 < K →
      ((RingBuffer.init K).appendAll fs).buffer = fs.drop (fs.length - K)) := by
  refine ⟨?_, ?_, ?_, ?_⟩
  · intro K ops
    have h := RingBuffer.runOps_invariant ops (RingBuffer.init K)
      (by simp [RingBuffer.init])
    have hK : ((RingBuffer.init K).runOps ops).maxFrames = K := by
      rw [h.2]; rfl
    rw [RingBuffer.size]
    exact le_trans h.1 (le_of_eq hK)
  · intro rb f hK hfull
    have happ : (rb.append f).buffer = rb.buffer.drop 1 ++ [f] := by
      simp only [RingBuffer.append]
      rw [if_neg (by omega), if_pos hfull]
    refine ⟨happ, ?_⟩
    rw [happ]
    simp only [List.length_append, List.length_drop, List.length_cons,
      List.length_nil]
    omega
  · intro rb
    exact ⟨rfl, rfl⟩
  · intro K fs hK
    have h := RingBuffer.appendAll_buffer fs (RingBuffer.init K) hK
      (by simp [RingBuffer.init])
    simpa [RingBuffer.init] using h

/-- Witness for C6 at a concrete capacity and operation sequence. -/
theorem ringBuffer_spec_witness :
    ((RingBuffer.init 3).appendAll [[1], [2], [3], [4]]).buffer =
      [[2], [3], [4]] := by
  have h := ringBuffer_spec.2.2.2 3 [[1], [2], [3], [4]] (by decide)
  simpa using h

/-! ### C7: capture loop frame shape and delivery policy -/

/-- Helper for C7: every frame sliced off the accumulator has exactly
the target length. -/
theorem emitFrames_frame_length (n : Nat) :
    ∀ acc : Bytes, acc.length ≤ n →
      ∀ f ∈ (emitFrames acc).1, f.length = TARGET_FRAME_BYTES := by
  induction n with
  | zero =>
    intro acc hlen f hf
    rw [emitFrames] at hf
    have hc : ¬ TARGET_FRAME_BYTES ≤ acc.length := by
      simp only [TARGET_FRAME_BYTES, FRAME_SIZE, SAMPLE_WIDTH, CHANNELS]
      omega
    rw [dif_neg hc] at hf
    simp at hf
  | succ n ih =>
    intro acc hlen f hf
    rw [emitFrames] at hf
    split at hf
    · rename_i hge
      simp only [List.mem_cons] at hf
      rcases hf with hf | hf
      · subst hf
        rw [List.length_take]
        exact min_eq_left hge
      · have hT : 0 < TARGET_FRAME_BYTES := by decide
        exact ih (acc.drop TARGET_FRAME_BYTES)
          (by simp only [List.length_drop]; omega) f hf
    · simp at hf

/-- Helper for C7: every frame emitted by a single loop iteration has
the target length. -/
theorem processRead_frame_length (st : CaptureState) (r : AlsaRead) :
    ∀ f ∈ (st.processRead r).2, f.length = TARGET_FRAME_BYTES := by
  cases r with
  | err code => simp [CaptureState.processRead]
  | data bytes =>
    intro f hf
    simp only [CaptureState.processRead] at hf
    split at hf
    · simp at hf
    · exact emitFrames_frame_length (st.accumulator ++ bytes).length _
        le_rfl f hf

/-- C7: every frame emitted by the capture loop is exactly F = 1024
bytes, and frame delivery always appends to the ring buffer while the
queue copy alone is dropped (with the drop counter incremented) when
the bounded queue is full. -/
theorem capture_frame_spec :
    (∀ (reads : List AlsaRead) (f : Bytes),
      f ∈ (CaptureState.init.runReads reads).2 → f.length = 1024) ∧
    (∀ (st : CaptureState) (frame : Bytes),
      (st.deliverFrame frame).ringBuffer = st.ringBuffer.append frame ∧
      (st.queue.length < st.queueMax →
        (st.deliverFrame frame).queue = st.queue ++ [frame] ∧
        (st.deliverFrame frame).dropCount = st.dropCount) ∧
      (st.queueMax ≤ st.queue.length →
        (st.deliverFrame frame).queue = st.queue ∧
        (st.deliverFrame frame).dropCount = st.dropCount + 1 ∧
        (st.deliverFrame frame).ringBuffer = st.ringBuffer.append frame)) := by
  constructor
  · have hruns : ∀ (reads : List AlsaRead) (st : CaptureState) (f : Bytes),
        f ∈ (st.runReads reads).2 → f.length = TARGET_FRAME_BYTES := by
      intro reads
      induction reads with
      | nil => intro st f hf; simp [CaptureState.runReads] at hf
      | cons r rest ih =>
        intro st f hf
        simp only [CaptureState.runReads, List.mem_append] at hf
        rcases hf with hf | hf
        · exact processRead_frame_length st r f hf
        · exact ih _ f hf
    intro reads f hf
    exact hruns reads CaptureState.init f hf
  · intro st frame
    refine ⟨?_, ?_, ?_⟩
    · simp only [CaptureState.deliverFrame]
      split <;> rfl
    · intro h
      simp only [CaptureState.deliverFrame]
      rw [if_pos h]
      exact ⟨rfl, rfl⟩
    · intro h
      simp only [CaptureState.deliverFrame]
      rw [if_neg (by omega)]
      exact ⟨rfl, rfl, rfl⟩

set_option maxRecDepth 8192 in
/-- Witness for C7: a single ALSA read of 2048 zero bytes emits two
1024-byte frames, and delivery into a zero-capacity queue drops only
the queue copy while the ring buffer still receives the frame. -/
theorem capture_frame_spec_witness :
    (List.replicate 1024 (0 : Nat)).length = 1024 ∧
    ((⟨RingBuffer.init 15, [], 0, 0, 0, []⟩ : CaptureState).deliverFrame
        [5]).queue = [] ∧
    ((⟨RingBuffer.init 15, [], 0, 0, 0, []⟩ : CaptureState).deliverFrame
        [5]).dropCount = 1 ∧
    ((⟨RingBuffer.init 15, [], 0, 0, 0, []⟩ : CaptureState).deliverFrame
        [5]).ringBuffer = (RingBuffer.init 15).append [5] := by
  have hemit : emitFrames (List.replicate 2048 (0 : Nat)) =
      ([List.replicate 1024 0, List.replicate 1024 0], []) := by
    rw [emitFrames]
    norm_num [List.take_replicate, List.drop_replicate, TARGET_FRAME_BYTES,
      FRAME_SIZE, SAMPLE_WIDTH, CHANNELS]
    rw [emitFrames]
    norm_num [List.take_replicate, List.drop_replicate, TARGET_FRAME_BYTES,
      FRAME_SIZE, SAMPLE_WIDTH, CHANNELS]
    rw [emitFrames]
    norm_num [TARGET_FRAME_BYTES, FRAME_SIZE, SAMPLE_WIDTH, CHANNELS]
  have hmem : List.replicate 1024 (0 : Nat) ∈
      (CaptureState.init.runReads [.data (List.replicate 2048 0)]).2 := by
    simp only [CaptureState.runReads, CaptureState.processRead,
      CaptureState.init, List.nil_append]
    rw [if_neg (by norm_num), hemit]
    simp
  have h1 := capture_frame_spec.1 [.data (List.replicate 2048 0)]
    (List.replicate 1024 0) hmem
  have h2 := (capture_frame_spec.2
    (⟨RingBuffer.init 15, [], 0, 0, 0, []⟩ : CaptureState) [5]).2.2
    (by decide)
  exact ⟨by simp [h1], h2.1, h2.2.1, h2.2.2⟩

/-! ### C8: WAV wrapping round-trip -/

set_option maxRecDepth 8192 in
/-- C8: for every even-length PCM byte string (whose WAV file the wave
module can represent, i.e. chunk sizes below 2^32), pcm_to_wav declares
16000 Hz, 1 channel and 2-byte samples in the header, and parsing the
file back recovers exactly the PCM payload. -/
theorem pcm_to_wav_roundtrip (pcm : Bytes) (_heven : pcm.length % 2 = 0)
    (hsize : 36 + pcm.length < 4294967296) :
    wavDecode (pcm_to_wav pcm) = some (16000, 1, 2, pcm) := by
  clear _heven
  simp only [pcm_to_wav, riffTag, waveTag, fmtTag, dataTag, le16, le32,
    SAMPLE_RATE, CHANNELS, SAMPLE_WIDTH, List.cons_append, List.nil_append]
  norm_num
  simp only [wavDecode, riffTag, waveTag, fmtTag, dataTag, readLe16, readLe32]
  norm_num [List.getD]
  omega

/-- Witness for C8 at a concrete 4-byte PCM payload. -/
theorem pcm_to_wav_roundtrip_witness :
    wavDecode (pcm_to_wav [1, 2, 3, 4]) = some (16000, 1, 2, [1, 2, 3, 4]) :=
  pcm_to_wav_roundtrip [1, 2, 3, 4] (by decide) (by decide)

/-! ### Playback-loop lemmas shared by C1, C5 and C10 -/

/-- writtenIndices distributes over action-trace concatenation. -/
theorem writtenIndices_append (a b : List PAction) :
    writtenIndices (a ++ b) = writtenIndices a ++ writtenIndices b := by
  simp [writtenIndices]

/-- muteActions distributes over action-trace concatenation. -/
theorem muteActions_append (a b : List PAction) :
    muteActions (a ++ b) = muteActions a ++ muteActions b := by
  simp [muteActions]

/-- Inserting under one key does not affect lookups of another key. -/
theorem lookupPending_insert_ne (l : List (Nat × Bytes × String))
    (k j : Nat) (v : Bytes × String) (hkj : k ≠ j) :
    lookupPending (insertPending l k v) j = lookupPending l j := by
  induction l with
  | nil => simp [insertPending, erasePending, lookupPending, hkj]
  | cons hd tl ih =>
    obtain ⟨k', w⟩ := hd
    by_cases hk : k' = k
    · subst hk
      have h1 : insertPending ((k', w) :: tl) k' v = insertPending tl k' v := by
        simp [insertPending, erasePending]
      rw [h1, ih]
      simp only [lookupPending]
      rw [if_neg hkj]
    · have h1 : insertPending ((k', w) :: tl) k v =
          (k', w) :: insertPending tl k v := by
        simp [insertPending, erasePending, hk]
      rw [h1]
      by_cases hj : k' = j
      · simp only [lookupPending]
        rw [if_pos hj, if_pos hj]
      · simp only [lookupPending]
        rw [if_neg hj, if_neg hj, ih]

/-- When the cursor's index is not pending, the drain loop does
nothing. -/
theorem drainLoop_none (decode : Bytes → String → Bytes) (p : PlayerState)
    (h : lookupPending p.pending p.nextIndex = none) :
    drainLoop decode p = (p, []) := by
  rw [drainLoop]
  split
  · rfl
  · rename_i audio ct heq
    rw [h] at heq
    cases heq

/-- Structure of one drain-loop run: the cursor advances by some k, the
mic/playing fields are untouched, all actions are PCM writes with
indices in [cursor, cursor+k) in strictly ascending order, and when
every chunk decodes to non-empty PCM the writes are exactly the indices
cursor, cursor+1, …, cursor+k-1. -/
theorem drainLoop_spec (n : Nat) :
    ∀ (decode : Bytes → String → Bytes) (p : PlayerState),
      p.pending.length ≤ n →
      ∃ k,
        (drainLoop decode p).1.nextIndex = p.nextIndex + k ∧
        (drainLoop decode p).1.micMutedAt = p.micMutedAt ∧
        (drainLoop decode p).1.playing = p.playing ∧
        (∀ i ∈ writtenIndices (drainLoop decode p).2,
          p.nextIndex ≤ i ∧ i < p.nextIndex + k) ∧
        List.Chain' (· < ·) (writtenIndices (drainLoop decode p).2) ∧
        (∀ a ∈ (drainLoop decode p).2, ∃ i pcm, a = PAction.writePcm i pcm) ∧
        ((∀ b ct, decode b ct ≠ []) →
          writtenIndices (drainLoop decode p).2 = List.range' p.nextIndex k) := by
  induction n with
  | zero =>
    intro decode p hlen
    have hnil : p.pending = [] := List.eq_nil_of_length_eq_zero (by omega)
    have h0 : lookupPending p.pending p.nextIndex = none := by
      rw [hnil]; rfl
    rw [drainLoop_none decode p h0]
    exact ⟨0, by simp, rfl, rfl, by simp [writtenIndices],
      by simp [writtenIndices], by simp, by simp [writtenIndices]⟩
  | succ n ih =>
    intro decode p hlen
    rw [drainLoop]
    split
    · exact ⟨0, by simp, rfl, rfl, by simp [writtenIndices],
        by simp [writtenIndices], by simp, by simp [writtenIndices]⟩
    · rename_i audio ct heq
      have hlt : (erasePending p.pending p.nextIndex).length <
          p.pending.length :=
        length_erasePending_lt p.pending p.nextIndex (by simp [heq])
      set p' : PlayerState :=
        { p with pending := erasePending p.pending p.nextIndex
                 nextIndex := p.nextIndex + 1 } with hp'
      have hplen : p'.pending.length ≤ n := by
        have : p'.pending = erasePending p.pending p.nextIndex := rfl
        rw [this]
        omega
      obtain ⟨k, h1, h2, h3, h4, h5, h6, h7⟩ := ih decode p' hplen
      have e1 : p'.nextIndex = p.nextIndex + 1 := rfl
      have e2 : p'.micMutedAt = p.micMutedAt := rfl
      have e3 : p'.playing = p.playing := rfl
      rw [e1] at h1 h4 h7
      rw [e2] at h2
      rw [e3] at h3
      refine ⟨k + 1, ?_, ?_, ?_, ?_, ?_, ?_, ?_⟩
      · rw [h1]; omega
      · exact h2
      · exact h3
      · intro i hi
        rw [writtenIndices_append] at hi
        rw [List.mem_append] at hi
        rcases hi with hi | hi
        · have : i = p.nextIndex := by
            revert hi
            split <;> intro hi <;> simp [writtenIndices] at hi
            omega
          omega
        · have := h4 i hi
          omega
      · rw [writtenIndices_append]
        split
        · rw [show writtenIndices [PAction.writePcm p.nextIndex
              (decode audio ct)] = [p.nextIndex] from rfl,
            List.singleton_append, List.chain'_cons']
          refine ⟨?_, h5⟩
          intro b hb
          have hbmem : b ∈ writtenIndices (drainLoop decode p').2 :=
            List.mem_of_mem_head? hb
          have := h4 b hbmem
          omega
        · rw [show writtenIndices ([] : List PAction) = [] from rfl,
            List.nil_append]
          exact h5
      · intro a ha
        rw [List.mem_append] at ha
        rcases ha with ha | ha
        · revert ha
          split <;> intro ha <;> simp at ha
          exact ⟨p.nextIndex, decode audio ct, ha⟩
        · exact h6 a ha
      · intro hdec
        rw [writtenIndices_append, if_pos (hdec audio ct),
          show writtenIndices [PAction.writePcm p.nextIndex
            (decode audio ct)] = [p.nextIndex] from rfl,
          h7 hdec, List.singleton_append]
        rw [List.range'_succ]

/-- The safety block never touches cursor, pending or playing; it keeps
the mic muted only when the mute is younger than the safety timeout, and
it never writes PCM or mutes. -/
theorem safetyCheck_spec (p : PlayerState) (now : ℚ) :
    (safetyCheck p now).1.nextIndex = p.nextIndex ∧
    (safetyCheck p now).1.pending = p.pending ∧
    (safetyCheck p now).1.playing = p.playing ∧
    (∀ t, (safetyCheck p now).1.micMutedAt = some t →
      p.micMutedAt = some t ∧ now - t ≤ MIC_MUTE_SAFETY_TIMEOUT_S) ∧
    writtenIndices (safetyCheck p now).2 = [] ∧
    muteActions (safetyCheck p now).2 = [] ∧
    (p.micMutedAt = none → safetyCheck p now = (p, [])) := by
  cases hm : p.micMutedAt with
  | none =>
    simp [safetyCheck, hm, writtenIndices, muteActions]
  | some t0 =>
    simp only [safetyCheck, hm]
    split
    · refine ⟨rfl, rfl, rfl, ?_, rfl, rfl, ?_⟩
      · intro t ht
        simp at ht
      · intro h
        simp [hm] at h
    · rename_i hle
      refine ⟨rfl, rfl, rfl, ?_, rfl, rfl, fun _ => rfl⟩
      intro t ht
      rw [hm] at ht
      injection ht with ht0
      subst ht0
      exact ⟨rfl, not_lt.mp hle⟩

/-- The sentinel branch always ends unmuted, not playing, with the
cursor reset to 0 and the pending map cleared; it writes no PCM and
issues no mute; when already unmuted its only action is the done
callback. -/
theorem handleSentinel_spec (p : PlayerState) :
    (handleSentinel p).1.micMutedAt = none ∧
    (handleSentinel p).1.playing = false ∧
    (handleSentinel p).1.nextIndex = 0 ∧
    (handleSentinel p).1.pending = [] ∧
    writtenIndices (handleSentinel p).2 = [] ∧
    muteActions (handleSentinel p).2 = [] ∧
    (p.micMutedAt = none →
      (handleSentinel p).2 = [PAction.playbackDone]) := by
  by_cases hm : p.micMutedAt = none <;>
    simp [handleSentinel, hm, writtenIndices, muteActions]

/-- All-writes action lists contain no mute requests. -/
theorem muteActions_of_writes (acts : List PAction)
    (h : ∀ a ∈ acts, ∃ i pcm, a = PAction.writePcm i pcm) :
    muteActions acts = [] := by
  induction acts with
  | nil => rfl
  | cons a rest ih =>
    obtain ⟨i, pcm, ha⟩ := h a (by simp)
    subst ha
    rw [show muteActions (PAction.writePcm i pcm :: rest) =
      muteActions rest from rfl]
    exact ih fun a ha' => h a (by simp [ha'])

/-- drainLoop_spec packaged at the exact pending length. -/
theorem drainLoop_packaged (decode : Bytes → String → Bytes)
    (st : PlayerState) :
    ∃ k,
      (drainLoop decode st).1.nextIndex = st.nextIndex + k ∧
      (drainLoop decode st).1.micMutedAt = st.micMutedAt ∧
      (drainLoop decode st).1.playing = st.playing ∧
      (∀ i ∈ writtenIndices (drainLoop decode st).2,
        st.nextIndex ≤ i ∧ i < st.nextIndex + k) ∧
      List.Chain' (· < ·) (writtenIndices (drainLoop decode st).2) ∧
      (∀ a ∈ (drainLoop decode st).2, ∃ i pcm, a = PAction.writePcm i pcm) ∧
      ((∀ b ct, decode b ct ≠ []) →
        writtenIndices (drainLoop decode st).2 = List.range' st.nextIndex k) :=
  drainLoop_spec st.pending.length decode st le_rfl

/-- The chunk branch: the mic/playing pair is set exactly when the
chunk's index is 0, the cursor only advances, all writes lie between the
old and new cursor in ascending order, and when every chunk decodes to
non-empty PCM the writes are exactly the cursor run. -/
theorem handleChunk_spec (decode : Bytes → String → Bytes)
    (p : PlayerState) (now : ℚ) (it : QItem) :
    ∃ k,
      (handleChunk decode p now it).1.nextIndex = p.nextIndex + k ∧
      (handleChunk decode p now it).1.micMutedAt =
        (if it.index = 0 then some now else p.micMutedAt) ∧
      (handleChunk decode p now it).1.playing =
        (if it.index = 0 then true else p.playing) ∧
      (∀ i ∈ writtenIndices (handleChunk decode p now it).2,
        p.nextIndex ≤ i ∧ i < p.nextIndex + k) ∧
      List.Chain' (· < ·) (writtenIndices (handleChunk decode p now it).2) ∧
      muteActions (handleChunk decode p now it).2 =
        (if it.index = 0 then [now] else []) ∧
      ((∀ b ct, decode b ct ≠ []) →
        writtenIndices (handleChunk decode p now it).2 =
          List.range' p.nextIndex k) := by
  by_cases hidx : it.index = 0
  · set st : PlayerState :=
      { p with
        pending := insertPending p.pending it.index (it.audio, it.contentType)
        micMutedAt := some now
        playing := true } with hst
    have hch : handleChunk decode p now it =
        ((drainLoop decode st).1,
         [PAction.muteMic now] ++ (drainLoop decode st).2) := by
      rw [handleChunk]
      simp only [if_pos hidx]
    obtain ⟨k, h1, h2, h3, h4, h5, h6, h7⟩ := drainLoop_packaged decode st
    have e1 : st.nextIndex = p.nextIndex := rfl
    rw [e1] at h1 h4 h7
    rw [hch]
    refine ⟨k, h1, ?_, ?_, ?_, ?_, ?_, ?_⟩
    · rw [if_pos hidx, h2]
    · rw [if_pos hidx, h3]
    · intro i hi
      rw [writtenIndices_append] at hi
      exact h4 i (by simpa [writtenIndices] using hi)
    · rw [writtenIndices_append,
        show writtenIndices [PAction.muteMic now] = [] from rfl,
        List.nil_append]
      exact h5
    · rw [muteActions_append,
        show muteActions [PAction.muteMic now] = [now] from rfl,
        muteActions_of_writes _ h6, if_pos hidx, List.append_nil]
    · intro hdec
      rw [writtenIndices_append,
        show writtenIndices [PAction.muteMic now] = [] from rfl,
        List.nil_append]
      exact h7 hdec
  · set st : PlayerState :=
      { p with
        pending := insertPending p.pending it.index
          (it.audio, it.contentType) } with hst
    have hch : handleChunk decode p now it =
        ((drainLoop decode st).1, [] ++ (drainLoop decode st).2) := by
      rw [handleChunk]
      simp only [if_neg hidx]
    obtain ⟨k, h1, h2, h3, h4, h5, h6, h7⟩ := drainLoop_packaged decode st
    have e1 : st.nextIndex = p.nextIndex := rfl
    rw [e1] at h1 h4 h7
    rw [hch]
    refine ⟨k, h1, ?_, ?_, ?_, ?_, ?_, ?_⟩
    · rw [if_neg hidx, h2]
    · rw [if_neg hidx, h3]
    · intro i hi
      rw [List.nil_append] at hi
      exact h4 i hi
    · rw [List.nil_append]
      exact h5
    · rw [List.nil_append, muteActions_of_writes _ h6, if_neg hidx]
    · intro hdec
      rw [List.nil_append]
      exact h7 hdec

/-- Helper: concatenating adjacent index ranges. -/
theorem range'_append_one (s m n : Nat) :
    List.range' s m ++ List.range' (s + m) n = List.range' s (m + n) := by
  induction m generalizing s with
  | zero => simp
  | succ m ih =>
    rw [List.range'_succ, show m + 1 + n = (m + n) + 1 by omega,
      List.range'_succ, List.cons_append,
      show s + (m + 1) = s + 1 + m by omega, ih (s + 1)]

/-- A loop iteration with an empty queue is exactly the safety check. -/
theorem stepPlayer_none (decode : Bytes → String → Bytes)
    (p : PlayerState) (now : ℚ) :
    stepPlayer decode p now none = safetyCheck p now := rfl

/-- A loop iteration on a sentinel item. -/
theorem stepPlayer_sentinel_eq (decode : Bytes → String → Bytes)
    (p : PlayerState) (now : ℚ) (it : QItem)
    (hct : it.contentType = "sentinel") :
    stepPlayer decode p now (some it) =
      ((handleSentinel (safetyCheck p now).1).1,
       (safetyCheck p now).2 ++ (handleSentinel (safetyCheck p now).1).2) := by
  simp [stepPlayer, hct]

/-- A loop iteration on a real chunk. -/
theorem stepPlayer_chunk_eq (decode : Bytes → String → Bytes)
    (p : PlayerState) (now : ℚ) (it : QItem)
    (hct : it.contentType ≠ "sentinel") :
    stepPlayer decode p now (some it) =
      ((handleChunk decode (safetyCheck p now).1 now it).1,
       (safetyCheck p now).2 ++
         (handleChunk decode (safetyCheck p now).1 now it).2) := by
  simp [stepPlayer, hct]

/-- After any loop iteration at time now, a still-muted mic was muted at
most the safety timeout ago. -/
theorem stepPlayer_muted_bound (decode : Bytes → String → Bytes)
    (p : PlayerState) (now : ℚ) (item : Option QItem) (t : ℚ)
    (h : (stepPlayer decode p now item).1.micMutedAt = some t) :
    now - t ≤ MIC_MUTE_SAFETY_TIMEOUT_S := by
  obtain ⟨s1, s2, s3, s4, s5, s6, s7⟩ := safetyCheck_spec p now
  cases item with
  | none =>
    rw [stepPlayer_none] at h
    exact (s4 t h).2
  | some it =>
    by_cases hct : it.contentType = "sentinel"
    · rw [stepPlayer_sentinel_eq decode p now it hct] at h
      rw [(handleSentinel_spec (safetyCheck p now).1).1] at h
      cases h
    · rw [stepPlayer_chunk_eq decode p now it hct] at h
      obtain ⟨k, c1, c2, c3, c4, c5, c6, c7⟩ :=
        handleChunk_spec decode (safetyCheck p now).1 now it
      rw [c2] at h
      revert h
      split
      · intro h
        injection h with h
        rw [← h, sub_self]
        norm_num [MIC_MUTE_SAFETY_TIMEOUT_S]
      · intro h
        exact (s4 t h).2

/-- A sentinel iteration always ends unmuted, not playing, with the
cursor and the pending map reset; it never writes and never mutes. -/
theorem stepPlayer_sentinel_spec (decode : Bytes → String → Bytes)
    (p : PlayerState) (now : ℚ) (it : QItem)
    (hct : it.contentType = "sentinel") :
    (stepPlayer decode p now (some it)).1.micMutedAt = none ∧
    (stepPlayer decode p now (some it)).1.playing = false ∧
    (stepPlayer decode p now (some it)).1.nextIndex = 0 ∧
    (stepPlayer decode p now (some it)).1.pending = [] ∧
    writtenIndices (stepPlayer decode p now (some it)).2 = [] ∧
    muteActions (stepPlayer decode p now (some it)).2 = [] := by
  obtain ⟨s1, s2, s3, s4, s5, s6, s7⟩ := safetyCheck_spec p now
  obtain ⟨hs1, hs2, hs3, hs4, hs5, hs6, hs7⟩ :=
    handleSentinel_spec (safetyCheck p now).1
  rw [stepPlayer_sentinel_eq decode p now it hct]
  exact ⟨hs1, hs2, hs3, hs4,
    by rw [writtenIndices_append, s5, hs5]; rfl,
    by rw [muteActions_append, s6, hs6]; rfl⟩

/-- The cursor/write footprint of one non-sentinel loop iteration. -/
theorem stepPlayer_nonsentinel_writes (decode : Bytes → String → Bytes)
    (p : PlayerState) (now : ℚ) (item : Option QItem)
    (hns : ∀ it, item = some it → it.contentType ≠ "sentinel") :
    ∃ k,
      (stepPlayer decode p now item).1.nextIndex = p.nextIndex + k ∧
      (∀ i ∈ writtenIndices (stepPlayer decode p now item).2,
        p.nextIndex ≤ i ∧ i < p.nextIndex + k) ∧
      List.Chain' (· < ·)
        (writtenIndices (stepPlayer decode p now item).2) ∧
      ((∀ b ct, decode b ct ≠ []) →
        writtenIndices (stepPlayer decode p now item).2 =
          List.range' p.nextIndex k) := by
  obtain ⟨s1, s2, s3, s4, s5, s6, s7⟩ := safetyCheck_spec p now
  cases item with
  | none =>
    rw [stepPlayer_none]
    exact ⟨0, by rw [s1, Nat.add_zero], by rw [s5]; simp,
      by rw [s5]; simp, fun _ => by rw [s5]; rfl⟩
  | some it =>
    have hct : it.contentType ≠ "sentinel" := hns it rfl
    rw [stepPlayer_chunk_eq decode p now it hct]
    obtain ⟨k, c1, c2, c3, c4, c5, c6, c7⟩ :=
      handleChunk_spec decode (safetyCheck p now).1 now it
    rw [s1] at c1 c4 c7
    refine ⟨k, c1, ?_, ?_, ?_⟩
    · intro i hi
      rw [writtenIndices_append, s5, List.nil_append] at hi
      exact c4 i hi
    · rw [writtenIndices_append, s5, List.nil_append]
      exact c5
    · intro hdec
      rw [writtenIndices_append, s5, List.nil_append]
      exact c7 hdec

/-- One-step unfolding of runPlayer. -/
theorem runPlayer_cons (decode : Bytes → String → Bytes)
    (p : PlayerState) (now : ℚ) (item : Option QItem)
    (rest : List (ℚ × Option QItem)) :
    runPlayer decode p ((now, item) :: rest) =
      ((runPlayer decode (stepPlayer decode p now item).1 rest).1,
       (stepPlayer decode p now item).2 ++
         (runPlayer decode (stepPlayer decode p now item).1 rest).2) := rfl

/-- runPlayer distributes over trace concatenation. -/
theorem runPlayer_append (decode : Bytes → String → Bytes)
    (a b : List (ℚ × Option QItem)) :
    ∀ p, runPlayer decode p (a ++ b) =
      ((runPlayer decode (runPlayer decode p a).1 b).1,
       (runPlayer decode p a).2 ++
         (runPlayer decode (runPlayer decode p a).1 b).2) := by
  induction a with
  | nil => intro p; simp [runPlayer]
  | cons e rest ih =>
    intro p
    obtain ⟨now, item⟩ := e
    rw [List.cons_append, runPlayer_cons, runPlayer_cons, ih]
    simp [List.append_assoc]

/-- The write footprint of a whole run of non-sentinel iterations. -/
theorem runPlayer_nonsentinel_writes (decode : Bytes → String → Bytes)
    (evs : List (ℚ × Option QItem))
    (hns : ∀ e ∈ evs, ∀ it, e.2 = some it → it.contentType ≠ "sentinel") :
    ∀ p, ∃ k,
      (runPlayer decode p evs).1.nextIndex = p.nextIndex + k ∧
      (∀ i ∈ writtenIndices (runPlayer decode p evs).2,
        p.nextIndex ≤ i ∧ i < p.nextIndex + k) ∧
      List.Chain' (· < ·) (writtenIndices (runPlayer decode p evs).2) ∧
      ((∀ b ct, decode b ct ≠ []) →
        writtenIndices (runPlayer decode p evs).2 =
          List.range' p.nextIndex k) := by
  induction evs with
  | nil =>
    intro p
    exact ⟨0, by simp [runPlayer], by simp [runPlayer, writtenIndices],
      by simp [runPlayer, writtenIndices],
      fun _ => by simp [runPlayer, writtenIndices]⟩
  | cons e rest ih =>
    intro p
    obtain ⟨now, item⟩ := e
    have hstep := stepPlayer_nonsentinel_writes decode p now item
      (fun it hit => hns (now, item) (by simp) it hit)
    obtain ⟨k0, g1, g2, g3, g4⟩ := hstep
    obtain ⟨k1, f1, f2, f3, f4⟩ := ih
      (fun e he it hit => hns e (by simp [he]) it hit)
      (stepPlayer decode p now item).1
    rw [g1] at f1 f2 f4
    rw [runPlayer_cons]
    refine ⟨k0 + k1, by rw [f1]; omega, ?_, ?_, ?_⟩
    · intro i hi
      rw [writtenIndices_append, List.mem_append] at hi
      rcases hi with hi | hi
      · have := g2 i hi
        omega
      · have := f2 i hi
        omega
    · rw [writtenIndices_append, List.chain'_append]
      refine ⟨g3, f3, ?_⟩
      intro x hx y hy
      have hxm := g2 x (List.mem_of_mem_getLast? hx)
      have hym := f2 y (List.mem_of_mem_head? hy)
      omega
    · intro hdec
      rw [writtenIndices_append, g4 hdec, f4 hdec,
        range'_append_one]

/-- The safety check either keeps the mute timestamp or clears it. -/
theorem safetyCheck_micMutedAt_cases (p : PlayerState) (now : ℚ) :
    (safetyCheck p now).1.micMutedAt = p.micMutedAt ∨
    (safetyCheck p now).1.micMutedAt = none := by
  cases hm : p.micMutedAt with
  | none =>
    left
    rw [(safetyCheck_spec p now).2.2.2.2.2.2 hm]
    exact hm
  | some t0 =>
    simp only [safetyCheck, hm]
    split
    · right; rfl
    · left; rw [hm]

/-! ### C1: the microphone is never left muted -/

/-- C1: on every modeled exit path from playback the mic ends unmuted —
after any loop iteration at time now a still-muted mic is younger than
T_mute_safety = 60 s (safety timer); a sentinel iteration (TTS
completion) always ends unmuted; and stop() (daemon shutdown) unmutes,
issuing an explicit unmute command whenever the mic was still muted. -/
theorem mic_mute_safety_spec :
    (∀ (decode : Bytes → String → Bytes) (p0 : PlayerState)
       (evs : List (ℚ × Option QItem)) (now : ℚ) (item : Option QItem)
       (t : ℚ),
       (runPlayer decode p0 (evs ++ [(now, item)])).1.micMutedAt = some t →
       now - t ≤ MIC_MUTE_SAFETY_TIMEOUT_S) ∧
    (∀ (decode : Bytes → String → Bytes) (p : PlayerState) (now : ℚ)
       (it : QItem), it.contentType = "sentinel" →
       (stepPlayer decode p now (some it)).1.micMutedAt = none) ∧
    (∀ p : PlayerState,
       (stopPlayer p).1.micMutedAt = none ∧
       (p.micMutedAt ≠ none → (stopPlayer p).2 = [PAction.unmuteMic])) := by
  refine ⟨?_, ?_, ?_⟩
  · intro decode p0 evs now item t h
    rw [runPlayer_append] at h
    have hsingle : (runPlayer decode (runPlayer decode p0 evs).1
        [(now, item)]).1 =
        (stepPlayer decode (runPlayer decode p0 evs).1 now item).1 := rfl
    rw [hsingle] at h
    exact stepPlayer_muted_bound decode _ now item t h
  · intro decode p now it hct
    exact (stepPlayer_sentinel_spec decode p now it hct).1
  · intro p
    by_cases hm : p.micMutedAt = none
    · constructor
      · simp [stopPlayer, hm]
      · intro h; exact absurd hm h
    · constructor
      · simp [stopPlayer, hm]
      · intro _; simp [stopPlayer, hm]

/-- Witness for C1: a player muted at t = 0 and polled at t = 30 is
within the safety bound; a sentinel at any state unmutes; stop() on a
muted player issues the unmute. -/
theorem mic_mute_safety_spec_witness :
    ((30 : ℚ) - 0 ≤ MIC_MUTE_SAFETY_TIMEOUT_S) ∧
    ((stepPlayer (fun b _ => b) PlayerState.init 2
        (some ⟨3, [], "sentinel"⟩)).1.micMutedAt = none) ∧
    ((stopPlayer ⟨0, [], false, some 1⟩).2 = [PAction.unmuteMic]) := by
  refine ⟨?_, ?_, ?_⟩
  · refine mic_mute_safety_spec.1 (fun b _ => b) ⟨0, [], false, some 0⟩
      [] 30 none 0 ?_
    show (stepPlayer (fun b _ => b) ⟨0, [], false, some 0⟩ 30
      none).1.micMutedAt = some 0
    rw [stepPlayer_none]
    simp only [safetyCheck]
    rw [if_neg (by norm_num [MIC_MUTE_SAFETY_TIMEOUT_S])]
  · exact mic_mute_safety_spec.2.1 (fun b _ => b) PlayerState.init 2
      ⟨3, [], "sentinel"⟩ rfl
  · exact (mic_mute_safety_spec.2.2 ⟨0, [], false, some 1⟩).2 (by simp)

/-! ### C5: strict ascending chunk write order -/

/-- C5: over any arrival order of chunks followed by signal_done, the
written chunk indices are strictly ascending (hence no index is written
twice), and when every chunk decodes to non-empty PCM they are exactly
0, 1, 2, … — an initial segment of the naturals. -/
theorem chunk_ordering_spec (decode : Bytes → String → Bytes)
    (evs : List (ℚ × Option QItem)) (ts : ℚ) (total : Nat) (audio : Bytes)
    (hns : ∀ e ∈ evs, ∀ it, e.2 = some it → it.contentType ≠ "sentinel") :
    List.Chain' (· < ·)
      (writtenIndices (runPlayer decode .init
        (evs ++ [(ts, some ⟨total, audio, "sentinel"⟩)])).2) ∧
    (writtenIndices (runPlayer decode .init
      (evs ++ [(ts, some ⟨total, audio, "sentinel"⟩)])).2).Nodup ∧
    ((∀ b ct, decode b ct ≠ []) →
      writtenIndices (runPlayer decode .init
        (evs ++ [(ts, some ⟨total, audio, "sentinel"⟩)])).2 =
        List.range (writtenIndices (runPlayer decode .init
          (evs ++ [(ts, some ⟨total, audio, "sentinel"⟩)])).2).length) := by
  obtain ⟨k, f1, f2, f3, f4⟩ :=
    runPlayer_nonsentinel_writes decode evs hns PlayerState.init
  have hsent := stepPlayer_sentinel_spec decode
    (runPlayer decode PlayerState.init evs).1 ts
    ⟨total, audio, "sentinel"⟩ rfl
  have hw : writtenIndices (runPlayer decode PlayerState.init
      (evs ++ [(ts, some ⟨total, audio, "sentinel"⟩)])).2 =
      writtenIndices (runPlayer decode PlayerState.init evs).2 := by
    rw [runPlayer_append, writtenIndices_append]
    have : writtenIndices (runPlayer decode
        (runPlayer decode PlayerState.init evs).1
        [(ts, some ⟨total, audio, "sentinel"⟩)]).2 = [] := by
      rw [runPlayer_cons]
      rw [writtenIndices_append, hsent.2.2.2.2.1]
      rfl
    rw [this, List.append_nil]
  rw [hw]
  refine ⟨f3, ?_, ?_⟩
  · have hpw : (writtenIndices (runPlayer decode PlayerState.init
        evs).2).Pairwise (· < ·) := List.chain'_iff_pairwise.mp f3
    exact hpw.imp Nat.ne_of_lt
  · intro hdec
    rw [f4 hdec]
    have : List.range' PlayerState.init.nextIndex k = List.range k := by
      rw [show PlayerState.init.nextIndex = 0 from rfl,
        List.range_eq_range']
    rw [this, List.length_range]

/-- Witness for C5 at the empty chunk sequence and an always-succeeding
decoder. -/
theorem chunk_ordering_spec_witness :
    List.Chain' (· < ·)
      (writtenIndices (runPlayer (fun _ _ => [1]) .init
        ([] ++ [((0 : ℚ), some ⟨0, [], "sentinel"⟩)])).2) ∧
    (writtenIndices (runPlayer (fun _ _ => [1]) .init
      ([] ++ [((0 : ℚ), some ⟨0, [], "sentinel"⟩)])).2).Nodup ∧
    ((∀ b ct, (fun (_ : Bytes) (_ : String) => [1]) b ct ≠ []) →
      writtenIndices (runPlayer (fun _ _ => [1]) .init
        ([] ++ [((0 : ℚ), some ⟨0, [], "sentinel"⟩)])).2 =
        List.range (writtenIndices (runPlayer (fun _ _ => [1]) .init
          ([] ++ [((0 : ℚ), some ⟨0, [], "sentinel"⟩)])).2).length) :=
  chunk_ordering_spec (fun _ _ => [1]) [] 0 0 [] (by simp)

/-! ### C10: no index-0 chunk means no mute, no writes -/

/-- The C10 loop invariant while no index-0 chunk has been dequeued. -/
def NoFirstChunkInv (p : PlayerState) : Prop :=
  p.micMutedAt = none ∧ p.playing = false ∧ p.nextIndex = 0 ∧
  lookupPending p.pending 0 = none

/-- One iteration on either an empty queue or a non-sentinel chunk with
non-zero index preserves the C10 invariant and performs no action. -/
theorem stepPlayer_no_first_chunk (decode : Bytes → String → Bytes)
    (p : PlayerState) (now : ℚ) (item : Option QItem)
    (hInv : NoFirstChunkInv p)
    (hit : ∀ it, item = some it →
      it.contentType ≠ "sentinel" ∧ it.index ≠ 0) :
    NoFirstChunkInv (stepPlayer decode p now item).1 ∧
    (stepPlayer decode p now item).2 = [] := by
  obtain ⟨hm, hp, hn, hl⟩ := hInv
  have hsafe : safetyCheck p now = (p, []) :=
    (safetyCheck_spec p now).2.2.2.2.2.2 hm
  cases item with
  | none =>
    rw [stepPlayer_none, hsafe]
    exact ⟨⟨hm, hp, hn, hl⟩, rfl⟩
  | some it =>
    obtain ⟨hct, hidx⟩ := hit it rfl
    rw [stepPlayer_chunk_eq decode p now it hct, hsafe]
    set st : PlayerState := { p with pending := insertPending p.pending it.index (it.audio, it.contentType) } with hst
    have hlook : lookupPending st.pending st.nextIndex = none := by
      have h1 : lookupPending st.pending st.nextIndex =
          lookupPending (insertPending p.pending it.index
            (it.audio, it.contentType)) p.nextIndex := rfl
      rw [h1, hn, lookupPending_insert_ne _ _ _ _ hidx]
      exact hl
    have hdl : drainLoop decode st = (st, []) :=
      drainLoop_none decode st hlook
    have hch : handleChunk decode p now it = (st, []) := by
      rw [handleChunk]
      simp only [if_neg hidx]
      rw [hdl]
      rfl
    rw [hch]
    refine ⟨⟨hm, hp, hn, ?_⟩, rfl⟩
    rw [show st.pending = insertPending p.pending it.index
      (it.audio, it.contentType) from rfl,
      lookupPending_insert_ne _ _ _ _ hidx]
    exact hl

/-- A whole run of such iterations preserves the invariant with an
empty action trace. -/
theorem runPlayer_no_first_chunk (decode : Bytes → String → Bytes)
    (evs : List (ℚ × Option QItem))
    (hits : ∀ e ∈ evs, ∀ it, e.2 = some it →
      it.contentType ≠ "sentinel" ∧ it.index ≠ 0) :
    ∀ p, NoFirstChunkInv p →
      NoFirstChunkInv (runPlayer decode p evs).1 ∧
      (runPlayer decode p evs).2 = [] := by
  induction evs with
  | nil => intro p hInv; exact ⟨hInv, rfl⟩
  | cons e rest ih =>
    intro p hInv
    obtain ⟨now, item⟩ := e
    obtain ⟨hInv', hacts⟩ := stepPlayer_no_first_chunk decode p now item
      hInv (fun it hit => hits (now, item) (by simp) it hit)
    obtain ⟨hInv'', hacts'⟩ := ih
      (fun e he it hit => hits e (by simp [he]) it hit) _ hInv'
    rw [runPlayer_cons]
    refine ⟨hInv'', ?_⟩
    rw [hacts, hacts']
    rfl

/-- C10: mute and the playing flag are set only when an index-0 chunk is
dequeued; if chunks arrive but index 0 never does before the sentinel,
nothing is written and the mic is never muted, and the sentinel still
clears the pending map and leaves the cursor at 0, its only action the
done callback. -/
theorem playback_no_first_chunk_spec (decode : Bytes → String → Bytes)
    (evs : List (ℚ × Option QItem)) (ts : ℚ) (total : Nat) (audio : Bytes)
    (hits : ∀ e ∈ evs, ∀ it, e.2 = some it →
      it.contentType ≠ "sentinel" ∧ it.index ≠ 0) :
    (runPlayer decode .init
      (evs ++ [(ts, some ⟨total, audio, "sentinel"⟩)])).2 =
      [PAction.playbackDone] ∧
    (runPlayer decode .init
      (evs ++ [(ts, some ⟨total, audio, "sentinel"⟩)])).1.pending = [] ∧
    (runPlayer decode .init
      (evs ++ [(ts, some ⟨total, audio, "sentinel"⟩)])).1.nextIndex = 0 ∧
    (runPlayer decode .init
      (evs ++ [(ts, some ⟨total, audio, "sentinel"⟩)])).1.micMutedAt =
        none ∧
    (runPlayer decode .init
      (evs ++ [(ts, some ⟨total, audio, "sentinel"⟩)])).1.playing =
        false ∧
    (∀ (p : PlayerState) (now : ℚ) (it : QItem),
      it.contentType ≠ "sentinel" → it.index ≠ 0 →
      (stepPlayer decode p now (some it)).1.playing = p.playing ∧
      ((stepPlayer decode p now (some it)).1.micMutedAt = p.micMutedAt ∨
        (stepPlayer decode p now (some it)).1.micMutedAt = none)) := by
  have hInv0 : NoFirstChunkInv PlayerState.init :=
    ⟨rfl, rfl, rfl, rfl⟩
  obtain ⟨hInv, hacts⟩ :=
    runPlayer_no_first_chunk decode evs hits PlayerState.init hInv0
  obtain ⟨hm, hp, hn, hl⟩ := hInv
  set A := (runPlayer decode PlayerState.init evs).1 with hA
  have hsafe : safetyCheck A ts = (A, []) :=
    (safetyCheck_spec A ts).2.2.2.2.2.2 hm
  have hsent := handleSentinel_spec A
  have hstep : stepPlayer decode A ts (some ⟨total, audio, "sentinel"⟩) =
      ((handleSentinel A).1, (handleSentinel A).2) := by
    rw [stepPlayer_sentinel_eq decode A ts ⟨total, audio, "sentinel"⟩ rfl,
      hsafe]
    rfl
  have hrun : runPlayer decode PlayerState.init
      (evs ++ [(ts, some ⟨total, audio, "sentinel"⟩)]) =
      ((handleSentinel A).1, (handleSentinel A).2) := by
    rw [runPlayer_append, runPlayer_cons, ← hA, hstep]
    simp only [runPlayer]
    rw [hacts]
    simp
  rw [hrun]
  refine ⟨hsent.2.2.2.2.2.2 hm, hsent.2.2.2.1, hsent.2.2.1, hsent.1,
    hsent.2.1, ?_⟩
  intro p now it hct hidx
  rw [stepPlayer_chunk_eq decode p now it hct]
  obtain ⟨k, c1, c2, c3, c4, c5, c6, c7⟩ :=
    handleChunk_spec decode (safetyCheck p now).1 now it
  constructor
  · rw [c3, if_neg hidx, (safetyCheck_spec p now).2.2.1]
  · rw [c2, if_neg hidx]
    exact safetyCheck_micMutedAt_cases p now

/-- Witness for C10: one out-of-order chunk (index 2) then the sentinel:
the only action is the done callback. -/
theorem playback_no_first_chunk_spec_witness :
    (runPlayer (fun b _ => b) .init
      ([((1 : ℚ), some ⟨2, [5], "audio/wav"⟩)] ++
        [((2 : ℚ), some ⟨3, [], "sentinel"⟩)])).2 =
      [PAction.playbackDone] :=
  (playback_no_first_chunk_spec (fun b _ => b)
    [((1 : ℚ), some ⟨2, [5], "audio/wav"⟩)] 2 3 []
    (by intro e he it hit
        simp only [List.mem_singleton] at he
        subst he
        simp only [Option.some.injEq] at hit
        subst hit
        exact ⟨by decide, by decide⟩)).1

/-! ### C9: VAD input-shape validation precedes any state mutation -/

/-- C9: get_probability and is_speech fail with the input-shape error
exactly when the frame is not 1024 bytes, and on that error the filter
memory, context window and hidden state are unchanged (the whole object
state is returned as it was). -/
theorem vad_shape_validation_spec :
    ∀ {H : Type} (session : List ℚ → H → ℚ × H) (v : VadState H)
      (frame : Bytes),
      ((∃ e, (v.getProbability session frame).2 = Except.error e) ↔
        frame.length ≠ 1024) ∧
      (frame.length ≠ 1024 → (v.getProbability session frame).1 = v) ∧
      ((∃ e, (v.isSpeech session frame).2 = Except.error e) ↔
        frame.length ≠ 1024) ∧
      (frame.length ≠ 1024 → (v.isSpeech session frame).1 = v) := by
  intro H session v frame
  have hexp : EXPECTED_BYTES = 1024 := rfl
  by_cases hlen : frame.length = 1024
  · have hcond : ¬ frame.length ≠ EXPECTED_BYTES := by
      rw [hexp]; exact not_not_intro hlen
    constructor
    · rw [VadState.getProbability, if_neg hcond]
      simp [hlen]
    constructor
    · intro h; exact absurd hlen h
    constructor
    · rw [VadState.isSpeech, VadState.getProbability, if_neg hcond]
      simp [hlen, Except.map]
    · intro h; exact absurd hlen h
  · have hcond : frame.length ≠ EXPECTED_BYTES := by
      rw [hexp]; exact hlen
    constructor
    · rw [VadState.getProbability, if_pos hcond]
      simp [hlen]
    constructor
    · intro _
      rw [VadState.getProbability, if_pos hcond]
    constructor
    · rw [VadState.isSpeech, VadState.getProbability, if_pos hcond]
      simp [hlen, Except.map]
    · intro _
      rw [VadState.isSpeech, VadState.getProbability, if_pos hcond]

/-- Witness for C9: a 2-byte frame makes get_probability fail and leaves
the concrete state untouched. -/
theorem vad_shape_validation_spec_witness :
    ((∃ e, ((⟨1/2, (), List.replicate 64 0, 64,
        ⟨1, -2, 1, 0, 0⟩, (0, 0)⟩ :
        VadState Unit).getProbability (fun _ h => (0, h)) [7, 7]).2 =
        Except.error e) ↔ ([7, 7] : Bytes).length ≠ 1024) ∧
    (([7, 7] : Bytes).length ≠ 1024 →
      ((⟨1/2, (), List.replicate 64 0, 64, ⟨1, -2, 1, 0, 0⟩, (0, 0)⟩ :
        VadState Unit).getProbability (fun _ h => (0, h)) [7, 7]).1 =
        ⟨1/2, (), List.replicate 64 0, 64, ⟨1, -2, 1, 0, 0⟩, (0, 0)⟩) ∧
    ((∃ e, ((⟨1/2, (), List.replicate 64 0, 64,
        ⟨1, -2, 1, 0, 0⟩, (0, 0)⟩ :
        VadState Unit).isSpeech (fun _ h => (0, h)) [7, 7]).2 =
        Except.error e) ↔ ([7, 7] : Bytes).length ≠ 1024) ∧
    (([7, 7] : Bytes).length ≠ 1024 →
      ((⟨1/2, (), List.replicate 64 0, 64, ⟨1, -2, 1, 0, 0⟩, (0, 0)⟩ :
        VadState Unit).isSpeech (fun _ h => (0, h)) [7, 7]).1 =
        ⟨1/2, (), List.replicate 64 0, 64, ⟨1, -2, 1, 0, 0⟩, (0, 0)⟩) :=
  vad_shape_validation_spec (fun _ h => (0, h))
    ⟨1/2, (), List.replicate 64 0, 64, ⟨1, -2, 1, 0, 0⟩, (0, 0)⟩ [7, 7]

/-- Witness for C2 at a concrete capture session: wake word with
pre-roll [1], one speech frame [2], then a silent frame [3] after the
2-second timeout elapses. -/
theorem capturing_frame_spec_witness :
    ∃ pre, ([((1 : ℚ), ([2] : Bytes), true), ((4 : ℚ), ([3] : Bytes), false)] :
        List (ℚ × Bytes × Bool)) =
        pre ++ ([] : List (ℚ × Bytes × Bool)) ∧
      ([1, 2, 3] : Bytes) = [1] ++ (pre.map (fun x => x.2.1)).flatten ∧
      (⟨State.idle, 2, [], 1, 0, 0⟩ : CaptureStateMachine).state =
        State.idle ∧
      (⟨State.idle, 2, [], 1, 0, 0⟩ : CaptureStateMachine).captureBuffer =
        [] :=
  capturing_frame_spec.2 0 [1] [(1, [2], true), (4, [3], false)]
    ⟨State.idle, 2, [], 1, 0, 0⟩ [] [1, 2, 3]
    (by norm_num [feedFrames, CaptureStateMachine.onFrame,
          CaptureStateMachine.onWakeWord, CaptureStateMachine.init,
          SILENCE_TIMEOUT_S])

end JarvisEar
